import Mathlib

/-!
Verification of the SPECFEM2D solver wrapper (`src/seisflows/solver/specfem2d.py`)
against its natural-language specification.

Shallow embedding choices:
* On-disk whitespace-delimited numeric tables become `Table := List (List ℚ)`;
  `np.loadtxt` requires a rectangular table, so theorems hypothesise that every
  row has the same length (that common length is the table's column count).
* Scalar values are idealised as exact rationals.  The `'%16.10e'` format used
  by `np.savetxt` rounds each written value to scientific notation with 10
  fractional digits; this decimal rounding is modelled by `fmt1610`, so the
  table produced by `save` is the table a subsequent `load` reads back.
* Filesystem and process effects (`unix.mv`, `unix.cp`, `unix.rm`, `unix.ln`,
  file writes, `subprocess.call`) are reified as explicit effect values so that
  "performs no write", "invoked exactly once", "exit status reported" become
  statements about the returned data.
* `meshsmooth` (from `seisflows.tools.array`) is an external collaborator of
  `smooth`; it is passed in as a function argument and universally quantified,
  since no claim depends on its values.
-/

namespace Seisflows

/-- A whitespace-delimited numeric table, one inner list per row. -/
abbrev Table := List (List ℚ)

/-- Column `j` of a table (`M[:, j]` on a rectangular matrix). -/
def getCol (t : Table) (j : ℕ) : List ℚ :=
  t.map (fun row => row.getD j 0)

/-- The table's column count, `M.shape[1]`: the common row length of the
rectangular matrix `np.loadtxt` returned. -/
def ncols (t : Table) : ℕ :=
  (t.headD []).length

/-- The decimal rounding performed by serialising a value with the
`'%16.10e'` format of `np.savetxt` (scientific notation, 10 fractional
digits) and parsing the printed text back: the value is rounded to the
granularity `10 ^ (e - 10)` where `10 ^ e ≤ |q| < 10 ^ (e + 1)`. -/
def fmt1610 (q : ℚ) : ℚ :=
  if q = 0 then 0
  else
    (round (q / (10 : ℚ) ^ (Int.log 10 |q| - 10)) : ℚ) * (10 : ℚ) ^ (Int.log 10 |q| - 10)

/-- A model/kernel record: the Python `dict` built by `load`, keys drawn from
`{x, z, rho, vp, vs}`; a missing key is `none` (`save` backfills it). -/
structure SFRecord where
  x   : Option (List ℚ)
  z   : Option (List ℚ)
  rho : Option (List ℚ)
  vp  : Option (List ℚ)
  vs  : Option (List ℚ)
deriving Repr, DecidableEq

/-- Dictionary lookup `model[key]` on the five known keys. -/
def getKey (m : SFRecord) (k : String) : Option (List ℚ) :=
  if k = "x" then m.x
  else if k = "z" then m.z
  else if k = "rho" then m.rho
  else if k = "vp" then m.vp
  else if k = "vs" then m.vs
  else none

/-- Dictionary assignment `model[key] = [v]` on the five known keys. -/
def setKey (m : SFRecord) (k : String) (v : List ℚ) : SFRecord :=
  if k = "x" then { m with x := some v }
  else if k = "z" then { m with z := some v }
  else if k = "rho" then { m with rho := some v }
  else if k = "vp" then { m with vp := some v }
  else if k = "vs" then { m with vs := some v }
  else m

/-- Embeds `specfem2d.load`: reads a 5- or 6-column table into a record.
`np.loadtxt` (default `ndmin=0`) squeezes a single-row or single-column file
to fewer than two dimensions, and an empty file yields a 1-D empty array, so
`M.shape[1]` (for a 0-d scalar already `M.shape[0]`) raises `IndexError`
before the column count is ever inspected.  On a genuinely 2-D table, a
5-column table has data offset 0; a 6-column table has a leading identifier
column and data offset 1; any other column count raises
`Exception('Bad SPECFEM2D model or kernel.')`. -/
def load (t : Table) : Except String SFRecord :=
  if t.length < 2 ∨ ncols t < 2 then
    .error "IndexError: tuple index out of range"
  else
    let ncol := ncols t
    if ncol = 5 then
      .ok ⟨some (getCol t 0), some (getCol t 1), some (getCol t 2),
           some (getCol t 3), some (getCol t 4)⟩
    else if ncol = 6 then
      .ok ⟨some (getCol t 1), some (getCol t 2), some (getCol t 3),
           some (getCol t 4), some (getCol t 5)⟩
    else
      .error "Bad SPECFEM2D model or kernel."

/-- Embeds `loadbyproc`: same `np.loadtxt` shape behaviour and column-count
validation as `load` (a squeezed, i.e. single-row or single-column, file
raises `IndexError` at the shape inspection), then extracts the single column
for `key`; the Python function falls off the end (returns `None`) for an
unknown key, hence the `Option`. -/
def loadbyproc (t : Table) (key : String) : Except String (Option (List ℚ)) :=
  if t.length < 2 ∨ ncols t < 2 then
    .error "IndexError: tuple index out of range"
  else
  let ncol := ncols t
  if ncol = 5 ∨ ncol = 6 then
    let ioff := if ncol = 5 then 0 else 1
    if key = "x" then .ok (some (getCol t ioff))
    else if key = "z" then .ok (some (getCol t (ioff + 1)))
    else if key = "rho" then .ok (some (getCol t (ioff + 2)))
    else if key = "vp" then .ok (some (getCol t (ioff + 3)))
    else if key = "vs" then .ok (some (getCol t (ioff + 4)))
    else .ok none
  else
    .error "Bad SPECFEM2D model or kernel."

/-- One column of the matrix `save` fills: `model[key][0]` when the key is
present, else `loadbyproc(PATH.MODEL_INIT, key)` (numpy raises when that
returns `None`, which cannot happen for the five keys `save` iterates). -/
def fillCol (mfield : Option (List ℚ)) (ref : Table) (key : String) :
    Except String (List ℚ) :=
  match mfield with
  | some v => .ok v
  | none =>
    match loadbyproc ref key with
    | .ok (some v) => .ok v
    | .ok none => .error "TypeError"
    | .error e => .error e

/-- The sequence length of an arbitrary present key
(`len(model[model.keys().pop()][0])`; dict order is arbitrary, and under the
equal-length invariant any present key gives the same answer). -/
def firstPresent (m : SFRecord) : Option (List ℚ) :=
  m.x <|> m.z <|> m.rho <|> m.vp <|> m.vs

/-- Embeds `specfem2d.save`: kind `"model"` writes 6 columns (the identifier column
is left at the `np.zeros` initial value), kind `"kernel"` writes 5 columns,
any other kind raises `ValueError`.  Missing keys among `{x, z, rho, vp, vs}`
are backfilled column-for-column from the reference initial-model table.
Every written entry passes through the `'%16.10e'` serialisation (`fmt1610`);
a column whose length differs from `nrow` makes the numpy column assignment
raise (modelled as an error). -/
def save (model : SFRecord) (type : String) (ref : Table) : Except String Table :=
  if type = "model" ∨ type = "kernel" then
    match firstPresent model with
    | none => .error "KeyError"
    | some v0 =>
      let nrow := v0.length
      (fillCol model.x ref "x").bind fun cx =>
      (fillCol model.z ref "z").bind fun cz =>
      (fillCol model.rho ref "rho").bind fun crho =>
      (fillCol model.vp ref "vp").bind fun cvp =>
      (fillCol model.vs ref "vs").bind fun cvs =>
      if cx.length = nrow ∧ cz.length = nrow ∧ crho.length = nrow ∧
          cvp.length = nrow ∧ cvs.length = nrow then
        .ok ((List.range nrow).map fun i =>
          ((if type = "model" then [(0 : ℚ)] else []) ++
            [cx.getD i 0, cz.getD i 0, crho.getD i 0,
             cvp.getD i 0, cvs.getD i 0]).map fmt1610)
      else
        .error "ValueError"
  else
    .error "ValueError"

/-- A reified filesystem effect (`unix.cp`, `unix.mv`, `unix.rm`, `unix.ln`,
`np.savetxt`). -/
inductive FsOp where
  | cp (src dst : String)
  | mv (src dst : String)
  | rm (target : String)
  | ln (src dst : String)
  | write (dst : String) (t : Table)
deriving Repr, DecidableEq

/-- Embeds `specfem2d.mpirun`: runs the script with `subprocess.call(script,
shell=True, stdout=f)`.  The call blocks until the process exits; its integer
return value (the process exit status) is discarded, the Python function
returns `None` and raises nothing.  Result: the singleton invocation trace and
the value reported to the caller. -/
def mpirun (script : String) (exitCode : ℤ) : List String × Except String Unit :=
  ([script], .ok ())

/-- The outcome of `forward`/`adjoint`: configuration flags set via `setpar`,
filesystem effects, the ordered trace of binaries invoked, and the value
reported to the caller. -/
structure SolverRun where
  pars   : List (String × String)
  fsops  : List FsOp
  calls  : List String
  result : Except String Unit
deriving Repr

/-- Embeds `specfem2d.forward`: sets `SIMULATION_TYPE = 1`, `SAVE_FORWARD = .true.`,
then runs `bin/xmeshfem2D` and `bin/xspecfem2D` in that order through
`mpirun`; a raised error from the first call would skip the second, and the
second call's value is what the caller sees.  `exitMesh`/`exitSolver` are the
exit statuses of the two external binaries. -/
def forward (exitMesh exitSolver : ℤ) : SolverRun :=
  let pars := [("SIMULATION_TYPE", "1"), ("SAVE_FORWARD", ".true.")]
  let m := mpirun "bin/xmeshfem2D" exitMesh
  match m.2 with
  | .error e => ⟨pars, [], m.1, .error e⟩
  | .ok _ =>
    let s := mpirun "bin/xspecfem2D" exitSolver
    ⟨pars, [], m.1 ++ s.1, s.2⟩

/-- Embeds `specfem2d.adjoint`: sets `SIMULATION_TYPE = 3`, `SAVE_FORWARD = .false.`,
replaces the `SEM` link (`unix.rm`, `unix.ln`), then the same two-stage run as
`forward`. -/
def adjoint (exitMesh exitSolver : ℤ) : SolverRun :=
  let pars := [("SIMULATION_TYPE", "3"), ("SAVE_FORWARD", ".false.")]
  let fsops := [FsOp.rm "SEM", FsOp.ln "traces/adj" "SEM"]
  let m := mpirun "bin/xmeshfem2D" exitMesh
  match m.2 with
  | .error e => ⟨pars, fsops, m.1, .error e⟩
  | .ok _ =>
    let s := mpirun "bin/xspecfem2D" exitSolver
    ⟨pars, fsops, m.1 ++ s.1, s.2⟩

/-- Embeds `specfem2d.combine`: the argument vector handed to `subprocess.call`:
the kernel-summation binary under the task workspace, the number of entries
`unix.ls(path)` found under `path`, and `path` itself.  No record is read,
summed or written by this function. -/
def combine (getpath path : String) (listing : List String) : List String :=
  [getpath ++ "/" ++ "bin/xsmooth_sem"] ++ [toString listing.length] ++ [path]

/-- The tracked physical-parameter list of this solver variant
(`parameters = []; parameters += ['vs']`). -/
def parameters : List String :=
  [] ++ ["vs"]

/-- Smallest element of a nonempty list (`ndarray.min()`; numpy raises on an
empty array, theorems hypothesise nonemptiness). -/
def listMin : List ℚ → ℚ
  | [] => 0
  | a :: l => l.foldl min a

/-- Largest element of a nonempty list (`ndarray.max()`). -/
def listMax : List ℚ → ℚ
  | [] => 0
  | a :: l => l.foldl max a

/-- Embeds `np.clip(v, lo, hi)`: equivalent to `np.minimum(hi, np.maximum(v, lo))`;
when `lo > hi` every output equals `hi`. -/
def npclip (lo hi v : ℚ) : ℚ :=
  min hi (max v lo)

/-- One iteration of the `for key in self.parameters` loop of `clip`:
`np.clip(parts[key][0], thresh*minval, thresh*maxval, out=parts[key][0])`
with that field's own extrema; a missing key would raise `KeyError`. -/
def clipField (thresh : ℚ) (m : SFRecord) (key : String) : Except String SFRecord :=
  match getKey m key with
  | none => .error "KeyError"
  | some vals =>
    let minval := listMin vals
    let maxval := listMax vals
    .ok (setKey m key (vals.map fun v => npclip (thresh * minval) (thresh * maxval) v))

/-- Embeds `specfem2d.clip`: loads `path/tag`; if `thresh >= 1.` returns the record
with no filesystem effect; otherwise clamps each tracked field, renames the
original to `path/_noclip` and saves (default kind `'model'`) to `path/tag`.
The Python else-branch returns `None`; the record is returned here alongside
the effects for observability. -/
def clip (t ref : Table) (path tag : String) (thresh : ℚ) :
    Except String (SFRecord × List FsOp) :=
  match load t with
  | .error e => .error e
  | .ok parts =>
    if thresh ≥ 1 then
      .ok (parts, [])
    else
      match parameters.foldlM (clipField thresh) parts with
      | .error e => .error e
      | .ok parts2 =>
        match save parts2 "model" ref with
        | .error e => .error e
        | .ok t2 =>
          .ok (parts2, [FsOp.mv (path ++ "/" ++ tag) (path ++ "/" ++ "_noclip"),
                        FsOp.write (path ++ "/" ++ tag) t2])

/-- The grid resolution `nx = np.around(np.sqrt(nn*lx/lz))` along the x axis
of `smooth`'s resampling grid. -/
noncomputable def smoothNx (nn : ℕ) (lx lz : ℚ) : ℤ :=
  round (Real.sqrt ((nn : ℝ) * (lx : ℝ) / (lz : ℝ)))

/-- The grid resolution `nz = np.around(np.sqrt(nn*lx/lz))` along the z axis
of `smooth`'s resampling grid (the source reuses the x-axis expression). -/
noncomputable def smoothNz (nn : ℕ) (lx lz : ℚ) : ℤ :=
  round (Real.sqrt ((nn : ℝ) * (lx : ℝ) / (lz : ℝ)))

/-- One iteration of the `for key in self.parameters` loop of `smooth`:
`parts[key] = [meshsmooth(x, z, parts[key][0], span, nx, nz)]`. -/
def smoothField (ms : List ℚ → List ℚ → List ℚ → ℚ → ℤ → ℤ → List ℚ)
    (x z : List ℚ) (span : ℚ) (nx nz : ℤ) (m : SFRecord) (key : String) :
    Except String SFRecord :=
  match getKey m key with
  | none => .error "KeyError"
  | some vals => .ok (setKey m key (ms x z vals span nx nz))

/-- Embeds `specfem2d.smooth`: loads `path/tag`; if `span == 0` returns the record
with no filesystem effect; otherwise builds the `nx × nz` grid from the node
scatter, convolves every tracked field through the external `meshsmooth`
collaborator `ms`, renames the original to `path/_nosmooth` and saves
(default kind `'model'`) to `path/tag`. -/
noncomputable def smooth (ms : List ℚ → List ℚ → List ℚ → ℚ → ℤ → ℤ → List ℚ)
    (t ref : Table) (path tag : String) (span : ℚ) :
    Except String (SFRecord × List FsOp) :=
  match load t with
  | .error e => .error e
  | .ok parts =>
    if span = 0 then
      .ok (parts, [])
    else
      let x := (getKey parts "x").getD []
      let z := (getKey parts "z").getD []
      let lx := listMax x - listMin x
      let lz := listMax z - listMin z
      let nn := x.length
      let nx := smoothNx nn lx lz
      let nz := smoothNz nn lx lz
      match parameters.foldlM (smoothField ms x z span nx nz) parts with
      | .error e => .error e
      | .ok parts2 =>
        match save parts2 "model" ref with
        | .error e => .error e
        | .ok t2 =>
          .ok (parts2, [FsOp.mv (path ++ "/" ++ tag) (path ++ "/" ++ "_nosmooth"),
                        FsOp.write (path ++ "/" ++ tag) t2])

/-- The smoothed vs field of a 5-column kernel table: the external
`meshsmooth` collaborator applied exactly as `smooth` applies it (node
coordinates, field values, span, and the two grid resolutions). -/
noncomputable def smoothedVs (ms : List ℚ → List ℚ → List ℚ → ℚ → ℤ → ℤ → List ℚ)
    (t : Table) (span : ℚ) : List ℚ :=
  ms (getCol t 0) (getCol t 1) (getCol t 4) span
    (smoothNx (getCol t 0).length
      (listMax (getCol t 0) - listMin (getCol t 0))
      (listMax (getCol t 1) - listMin (getCol t 1)))
    (smoothNz (getCol t 0).length
      (listMax (getCol t 0) - listMin (getCol t 0))
      (listMax (getCol t 1) - listMin (getCol t 1)))

/-- Embeds `specfem2d.export_model`: copies `<getpath>/DATA/model_velocity.dat_input`
to `path` when `system.getnode() == 0`, and does nothing otherwise. -/
def export_model (getpath : String) (node : ℕ) (path : String) : List FsOp :=
  if node = 0 then
    [FsOp.cp (getpath ++ "/" ++ "DATA/model_velocity.dat_input") path]
  else
    []

/-! ### Helper lemmas -/

theorem int_log_eq (q : ℚ) (e : ℤ) (h0 : 0 < q)
    (h1 : (10 : ℚ) ^ e ≤ q) (h2 : q < (10 : ℚ) ^ (e + 1)) :
    Int.log 10 q = e := by
  have hb : 1 < (10 : ℕ) := by norm_num
  have hle : e ≤ Int.log 10 q := by
    refine (Int.zpow_le_iff_le_log hb h0).mp ?_
    exact_mod_cast h1
  have hlt : Int.log 10 q < e + 1 := by
    refine (Int.lt_zpow_iff_log_lt hb h0).mp ?_
    exact_mod_cast h2
  omega

theorem fmt1610_close (q : ℚ) : |fmt1610 q - q| ≤ |q| / 10 ^ 10 := by
  unfold fmt1610
  by_cases h : q = 0
  · simp [h]
  · rw [if_neg h]
    have habs : (0 : ℚ) < |q| := abs_pos.mpr h
    set e := Int.log 10 |q| with he
    have hg0 : (0 : ℚ) < (10 : ℚ) ^ (e - 10) := zpow_pos (by norm_num) _
    set r : ℤ := round (q / (10 : ℚ) ^ (e - 10)) with hr
    have hround : |(r : ℚ) - q / (10 : ℚ) ^ (e - 10)| ≤ 1 / 2 := by
      have := abs_sub_round (α := ℚ) (q / (10 : ℚ) ^ (e - 10))
      rwa [abs_sub_comm] at this
    have key : (r : ℚ) * (10 : ℚ) ^ (e - 10) - q
        = ((r : ℚ) - q / (10 : ℚ) ^ (e - 10)) * (10 : ℚ) ^ (e - 10) := by
      field_simp
    rw [key, abs_mul, abs_of_pos hg0]
    have step1 : |(r : ℚ) - q / (10 : ℚ) ^ (e - 10)| * (10 : ℚ) ^ (e - 10)
        ≤ (1 / 2) * (10 : ℚ) ^ (e - 10) :=
      mul_le_mul_of_nonneg_right hround hg0.le
    refine step1.trans ?_
    have hlow : (10 : ℚ) ^ e ≤ |q| := by
      have := Int.zpow_log_le_self (b := 10) (r := |q|) (by norm_num) habs
      rw [← he] at this
      exact_mod_cast this
    have hsplit : (10 : ℚ) ^ e = (10 : ℚ) ^ (e - 10) * 10 ^ 10 := by
      rw [← zpow_natCast (10 : ℚ) 10, ← zpow_add₀ (by norm_num : (10 : ℚ) ≠ 0)]
      congr 1
      omega
    have h10 : (0 : ℚ) < 10 ^ 10 := by norm_num
    have hfrac : (10 : ℚ) ^ (e - 10) ≤ |q| / 10 ^ 10 := by
      rw [le_div_iff h10]
      calc (10 : ℚ) ^ (e - 10) * 10 ^ 10 = (10 : ℚ) ^ e := hsplit.symm
        _ ≤ |q| := hlow
    linarith

theorem fmt1610_eq_self (q : ℚ) (m e : ℤ) (hq : q = (m : ℚ) * (10 : ℚ) ^ (e - 10))
    (hm1 : (10 : ℤ) ^ 10 ≤ |m|) (hm2 : |m| < (10 : ℤ) ^ 11) : fmt1610 q = q := by
  have hm0 : m ≠ 0 := by
    intro h
    rw [h] at hm1
    norm_num at hm1
  have hg0 : (0 : ℚ) < (10 : ℚ) ^ (e - 10) := zpow_pos (by norm_num) _
  have hq0 : q ≠ 0 := by
    rw [hq]
    exact mul_ne_zero (by exact_mod_cast hm0) hg0.ne'
  have habs : |q| = ((|m| : ℤ) : ℚ) * (10 : ℚ) ^ (e - 10) := by
    rw [hq, abs_mul, abs_of_pos hg0, ← Int.cast_abs]
  have hlog : Int.log 10 |q| = e := by
    apply int_log_eq
    · exact abs_pos.mpr hq0
    · rw [habs]
      have h1 : ((10 : ℤ) ^ 10 : ℚ) ≤ ((|m| : ℤ) : ℚ) := by exact_mod_cast hm1
      calc (10 : ℚ) ^ e = (10 : ℚ) ^ 10 * (10 : ℚ) ^ (e - 10) := by
            rw [← zpow_natCast (10 : ℚ) 10, ← zpow_add₀ (by norm_num : (10 : ℚ) ≠ 0)]
            congr 1
            omega
        _ ≤ ((|m| : ℤ) : ℚ) * (10 : ℚ) ^ (e - 10) := by
            apply mul_le_mul_of_nonneg_right _ hg0.le
            push_cast at h1 ⊢
            linarith
    · rw [habs]
      have h2 : ((|m| : ℤ) : ℚ) < ((10 : ℤ) ^ 11 : ℚ) := by exact_mod_cast hm2
      calc ((|m| : ℤ) : ℚ) * (10 : ℚ) ^ (e - 10)
          < (10 : ℚ) ^ 11 * (10 : ℚ) ^ (e - 10) := by
            apply mul_lt_mul_of_pos_right _ hg0
            push_cast at h2 ⊢
            linarith
        _ = (10 : ℚ) ^ (e + 1) := by
            rw [← zpow_natCast (10 : ℚ) 11, ← zpow_add₀ (by norm_num : (10 : ℚ) ≠ 0)]
            congr 1
            omega
  unfold fmt1610
  rw [if_neg hq0, hlog]
  have hdiv : q / (10 : ℚ) ^ (e - 10) = (m : ℚ) := by
    rw [hq]
    field_simp
  rw [hdiv, round_intCast, ← hq]

theorem range_map_getD {α β : Type} (l : List α) (d : α) (f : α → β) :
    (List.range l.length).map (fun i => f (l.getD i d)) = l.map f := by
  induction l with
  | nil => simp
  | cons a t ih =>
    rw [List.length_cons, List.range_succ_eq_map, List.map_cons, List.map_map]
    simp only [List.getD_cons_zero, Function.comp_def, List.getD_cons_succ]
    rw [ih, List.map_cons]

theorem ncols_eq (t : Table) (ncol : ℕ)
    (hrect : ∀ row ∈ t, row.length = ncol) (hne : t ≠ []) : ncols t = ncol := by
  cases t with
  | nil => exact absurd rfl hne
  | cons r t =>
    have : r.length = ncol := hrect r (List.mem_cons_self r t)
    simpa [ncols] using this

theorem fmt1610_zero : fmt1610 0 = 0 := by
  simp [fmt1610]

theorem load_squeezed (t : Table) (h : t.length < 2 ∨ ncols t < 2) :
    load t = .error "IndexError: tuple index out of range" := by
  unfold load
  rw [if_pos h]

theorem load_ncols5 (t : Table) (h : ncols t = 5) (hrows : 2 ≤ t.length) :
    load t = .ok ⟨some (getCol t 0), some (getCol t 1), some (getCol t 2),
                  some (getCol t 3), some (getCol t 4)⟩ := by
  have hsq : ¬ (t.length < 2 ∨ ncols t < 2) := by omega
  unfold load
  rw [if_neg hsq]
  simp [h]

theorem load_ncols6 (t : Table) (h : ncols t = 6) (hrows : 2 ≤ t.length) :
    load t = .ok ⟨some (getCol t 1), some (getCol t 2), some (getCol t 3),
                  some (getCol t 4), some (getCol t 5)⟩ := by
  have hsq : ¬ (t.length < 2 ∨ ncols t < 2) := by omega
  unfold load
  rw [if_neg hsq]
  simp [h]

theorem load_ncols_bad (t : Table) (h5 : ncols t ≠ 5) (h6 : ncols t ≠ 6)
    (hrows : 2 ≤ t.length) (hcols : 2 ≤ ncols t) :
    load t = .error "Bad SPECFEM2D model or kernel." := by
  have hsq : ¬ (t.length < 2 ∨ ncols t < 2) := by omega
  unfold load
  rw [if_neg hsq]
  simp [h5, h6]

theorem getCol_length (t : Table) (j : ℕ) : (getCol t j).length = t.length := by
  simp [getCol]

theorem save_all_present (cx cz crho cvp cvs : List ℚ) (ref : Table) (ty : String)
    (n : ℕ) (hx : cx.length = n) (hz : cz.length = n) (hrho : crho.length = n)
    (hvp : cvp.length = n) (hvs : cvs.length = n)
    (ht : ty = "model" ∨ ty = "kernel") :
    save ⟨some cx, some cz, some crho, some cvp, some cvs⟩ ty ref =
      .ok ((List.range n).map fun i =>
        ((if ty = "model" then [(0 : ℚ)] else []) ++
          [cx.getD i 0, cz.getD i 0, crho.getD i 0,
           cvp.getD i 0, cvs.getD i 0]).map fmt1610) := by
  subst hx
  simp [save, ht, firstPresent, fillCol, Except.bind, hz, hrho, hvp, hvs]

theorem getCol_map_rows (g : ℕ → List ℚ) (n j : ℕ) :
    getCol ((List.range n).map g) j = (List.range n).map fun i => (g i).getD j 0 := by
  simp [getCol, List.map_map, Function.comp_def]

theorem kernel_table_cols (cx cz crho cvp cvs : List ℚ) (n : ℕ)
    (hx : cx.length = n) (hz : cz.length = n) (hrho : crho.length = n)
    (hvp : cvp.length = n) (hvs : cvs.length = n) :
    getCol ((List.range n).map fun i =>
        ([cx.getD i 0, cz.getD i 0, crho.getD i 0,
          cvp.getD i 0, cvs.getD i 0]).map fmt1610) 0 = cx.map fmt1610 ∧
    getCol ((List.range n).map fun i =>
        ([cx.getD i 0, cz.getD i 0, crho.getD i 0,
          cvp.getD i 0, cvs.getD i 0]).map fmt1610) 1 = cz.map fmt1610 ∧
    getCol ((List.range n).map fun i =>
        ([cx.getD i 0, cz.getD i 0, crho.getD i 0,
          cvp.getD i 0, cvs.getD i 0]).map fmt1610) 2 = crho.map fmt1610 ∧
    getCol ((List.range n).map fun i =>
        ([cx.getD i 0, cz.getD i 0, crho.getD i 0,
          cvp.getD i 0, cvs.getD i 0]).map fmt1610) 3 = cvp.map fmt1610 ∧
    getCol ((List.range n).map fun i =>
        ([cx.getD i 0, cz.getD i 0, crho.getD i 0,
          cvp.getD i 0, cvs.getD i 0]).map fmt1610) 4 = cvs.map fmt1610 := by
  refine ⟨?_, ?_, ?_, ?_, ?_⟩
  · rw [getCol_map_rows]
    simp only [List.map_cons, List.map_nil, List.getD_cons_zero]
    rw [← hx, range_map_getD]
  · rw [getCol_map_rows]
    simp only [List.map_cons, List.map_nil, List.getD_cons_succ, List.getD_cons_zero]
    rw [← hz, range_map_getD]
  · rw [getCol_map_rows]
    simp only [List.map_cons, List.map_nil, List.getD_cons_succ, List.getD_cons_zero]
    rw [← hrho, range_map_getD]
  · rw [getCol_map_rows]
    simp only [List.map_cons, List.map_nil, List.getD_cons_succ, List.getD_cons_zero]
    rw [← hvp, range_map_getD]
  · rw [getCol_map_rows]
    simp only [List.map_cons, List.map_nil, List.getD_cons_succ, List.getD_cons_zero]
    rw [← hvs, range_map_getD]

theorem model_table_cols (cx cz crho cvp cvs : List ℚ) (n : ℕ)
    (hx : cx.length = n) (hz : cz.length = n) (hrho : crho.length = n)
    (hvp : cvp.length = n) (hvs : cvs.length = n) :
    getCol ((List.range n).map fun i =>
        ((0 : ℚ) :: [cx.getD i 0, cz.getD i 0, crho.getD i 0,
          cvp.getD i 0, cvs.getD i 0]).map fmt1610) 1 = cx.map fmt1610 ∧
    getCol ((List.range n).map fun i =>
        ((0 : ℚ) :: [cx.getD i 0, cz.getD i 0, crho.getD i 0,
          cvp.getD i 0, cvs.getD i 0]).map fmt1610) 2 = cz.map fmt1610 ∧
    getCol ((List.range n).map fun i =>
        ((0 : ℚ) :: [cx.getD i 0, cz.getD i 0, crho.getD i 0,
          cvp.getD i 0, cvs.getD i 0]).map fmt1610) 3 = crho.map fmt1610 ∧
    getCol ((List.range n).map fun i =>
        ((0 : ℚ) :: [cx.getD i 0, cz.getD i 0, crho.getD i 0,
          cvp.getD i 0, cvs.getD i 0]).map fmt1610) 4 = cvp.map fmt1610 ∧
    getCol ((List.range n).map fun i =>
        ((0 : ℚ) :: [cx.getD i 0, cz.getD i 0, crho.getD i 0,
          cvp.getD i 0, cvs.getD i 0]).map fmt1610) 5 = cvs.map fmt1610 := by
  refine ⟨?_, ?_, ?_, ?_, ?_⟩
  · rw [getCol_map_rows]
    simp only [List.map_cons, List.map_nil, List.getD_cons_succ, List.getD_cons_zero]
    rw [← hx, range_map_getD]
  · rw [getCol_map_rows]
    simp only [List.map_cons, List.map_nil, List.getD_cons_succ, List.getD_cons_zero]
    rw [← hz, range_map_getD]
  · rw [getCol_map_rows]
    simp only [List.map_cons, List.map_nil, List.getD_cons_succ, List.getD_cons_zero]
    rw [← hrho, range_map_getD]
  · rw [getCol_map_rows]
    simp only [List.map_cons, List.map_nil, List.getD_cons_succ, List.getD_cons_zero]
    rw [← hvp, range_map_getD]
  · rw [getCol_map_rows]
    simp only [List.map_cons, List.map_nil, List.getD_cons_succ, List.getD_cons_zero]
    rw [← hvs, range_map_getD]

theorem saved_table_rect_kernel (cx cz crho cvp cvs : List ℚ) (n : ℕ) :
    ∀ row ∈ (List.range n).map (fun i =>
      ([cx.getD i 0, cz.getD i 0, crho.getD i 0,
        cvp.getD i 0, cvs.getD i 0]).map fmt1610), row.length = 5 := by
  intro row hrow
  simp only [List.mem_map] at hrow
  obtain ⟨i, _, rfl⟩ := hrow
  simp

theorem saved_table_rect_model (cx cz crho cvp cvs : List ℚ) (n : ℕ) :
    ∀ row ∈ (List.range n).map (fun i =>
      ((0 : ℚ) :: [cx.getD i 0, cz.getD i 0, crho.getD i 0,
        cvp.getD i 0, cvs.getD i 0]).map fmt1610), row.length = 6 := by
  intro row hrow
  simp only [List.mem_map] at hrow
  obtain ⟨i, _, rfl⟩ := hrow
  simp

theorem getKey_x (m : SFRecord) : getKey m "x" = m.x := rfl

theorem getKey_z (m : SFRecord) : getKey m "z" = m.z := rfl

theorem getKey_rho (m : SFRecord) : getKey m "rho" = m.rho := rfl

theorem getKey_vp (m : SFRecord) : getKey m "vp" = m.vp := rfl

theorem getKey_vs (m : SFRecord) : getKey m "vs" = m.vs := rfl

theorem except_bind_pure {α : Type} (x : Except String α) :
    (x.bind fun a => Except.ok a) = x := by
  cases x <;> rfl

theorem clip_run (t ref : Table) (path tag : String) (thresh : ℚ)
    (hth : ¬ thresh ≥ 1) (hrect : ∀ row ∈ t, row.length = 5) (hrows : 2 ≤ t.length) :
    ∃ t2, clip t ref path tag thresh =
        .ok (⟨some (getCol t 0), some (getCol t 1), some (getCol t 2), some (getCol t 3),
              some ((getCol t 4).map fun v =>
                npclip (thresh * listMin (getCol t 4)) (thresh * listMax (getCol t 4)) v)⟩,
             [FsOp.mv (path ++ "/" ++ tag) (path ++ "/" ++ "_noclip"),
              FsOp.write (path ++ "/" ++ tag) t2]) ∧
      getCol t2 1 = (getCol t 0).map fmt1610 ∧
      getCol t2 2 = (getCol t 1).map fmt1610 ∧
      getCol t2 3 = (getCol t 2).map fmt1610 ∧
      getCol t2 4 = (getCol t 3).map fmt1610 ∧
      getCol t2 5 = ((getCol t 4).map fun v =>
        npclip (thresh * listMin (getCol t 4)) (thresh * listMax (getCol t 4)) v).map fmt1610 := by
  have hne : t ≠ [] := by
    intro h
    rw [h] at hrows
    simp at hrows
  have hn5 : ncols t = 5 := ncols_eq t 5 hrect hne
  have hload := load_ncols5 t hn5 hrows
  set cvs' := (getCol t 4).map fun v =>
    npclip (thresh * listMin (getCol t 4)) (thresh * listMax (getCol t 4)) v with hcvs
  have hfold : parameters.foldlM (clipField thresh)
      ⟨some (getCol t 0), some (getCol t 1), some (getCol t 2),
       some (getCol t 3), some (getCol t 4)⟩ =
      .ok ⟨some (getCol t 0), some (getCol t 1), some (getCol t 2),
           some (getCol t 3), some cvs'⟩ := by
    simp only [parameters, List.nil_append, List.foldlM, clipField, getKey, setKey]
    rfl
  have hlenvs : cvs'.length = t.length := by
    rw [hcvs, List.length_map, getCol_length]
  have hsave := save_all_present (getCol t 0) (getCol t 1) (getCol t 2) (getCol t 3)
    cvs' ref "model" t.length (getCol_length t 0) (getCol_length t 1) (getCol_length t 2)
    (getCol_length t 3) hlenvs (Or.inl rfl)
  refine ⟨(List.range t.length).map fun i =>
      ((0 : ℚ) :: [(getCol t 0).getD i 0, (getCol t 1).getD i 0, (getCol t 2).getD i 0,
        (getCol t 3).getD i 0, cvs'.getD i 0]).map fmt1610, ?_, ?_⟩
  · have hsave' : save ⟨some (getCol t 0), some (getCol t 1), some (getCol t 2),
        some (getCol t 3), some cvs'⟩ "model" ref =
        .ok ((List.range t.length).map fun i =>
          ((0 : ℚ) :: [(getCol t 0).getD i 0, (getCol t 1).getD i 0, (getCol t 2).getD i 0,
            (getCol t 3).getD i 0, cvs'.getD i 0]).map fmt1610) := by
      rw [hsave]
      simp
    simp only [clip, hload]
    rw [if_neg hth]
    simp only [hfold, hsave']
  · exact model_table_cols (getCol t 0) (getCol t 1) (getCol t 2) (getCol t 3)
      cvs' t.length (getCol_length t 0) (getCol_length t 1) (getCol_length t 2)
      (getCol_length t 3) hlenvs

theorem smooth_run (ms : List ℚ → List ℚ → List ℚ → ℚ → ℤ → ℤ → List ℚ)
    (t ref : Table) (path tag : String) (span : ℚ)
    (hsp : ¬ span = 0) (hrect : ∀ row ∈ t, row.length = 5) (hrows : 2 ≤ t.length)
    (hms : (smoothedVs ms t span).length = t.length) :
    ∃ t2, smooth ms t ref path tag span =
        .ok (⟨some (getCol t 0), some (getCol t 1), some (getCol t 2), some (getCol t 3),
              some (smoothedVs ms t span)⟩,
             [FsOp.mv (path ++ "/" ++ tag) (path ++ "/" ++ "_nosmooth"),
              FsOp.write (path ++ "/" ++ tag) t2]) ∧
      getCol t2 1 = (getCol t 0).map fmt1610 ∧
      getCol t2 2 = (getCol t 1).map fmt1610 ∧
      getCol t2 3 = (getCol t 2).map fmt1610 ∧
      getCol t2 4 = (getCol t 3).map fmt1610 ∧
      getCol t2 5 = (smoothedVs ms t span).map fmt1610 := by
  have hne : t ≠ [] := by
    intro h
    rw [h] at hrows
    simp at hrows
  have hn5 : ncols t = 5 := ncols_eq t 5 hrect hne
  have hload := load_ncols5 t hn5 hrows
  have hfold : parameters.foldlM
      (smoothField ms (getCol t 0) (getCol t 1) span
        (smoothNx (getCol t 0).length
          (listMax (getCol t 0) - listMin (getCol t 0))
          (listMax (getCol t 1) - listMin (getCol t 1)))
        (smoothNz (getCol t 0).length
          (listMax (getCol t 0) - listMin (getCol t 0))
          (listMax (getCol t 1) - listMin (getCol t 1))))
      ⟨some (getCol t 0), some (getCol t 1), some (getCol t 2),
       some (getCol t 3), some (getCol t 4)⟩ =
      .ok ⟨some (getCol t 0), some (getCol t 1), some (getCol t 2),
           some (getCol t 3), some (smoothedVs ms t span)⟩ := by
    simp only [parameters, List.nil_append, List.foldlM, smoothField, getKey, setKey,
      smoothedVs]
    rfl
  have hsave := save_all_present (getCol t 0) (getCol t 1) (getCol t 2) (getCol t 3)
    (smoothedVs ms t span) ref "model" t.length (getCol_length t 0) (getCol_length t 1)
    (getCol_length t 2) (getCol_length t 3) hms (Or.inl rfl)
  refine ⟨(List.range t.length).map fun i =>
      ((0 : ℚ) :: [(getCol t 0).getD i 0, (getCol t 1).getD i 0, (getCol t 2).getD i 0,
        (getCol t 3).getD i 0, (smoothedVs ms t span).getD i 0]).map fmt1610, ?_, ?_⟩
  · have hsave' : save ⟨some (getCol t 0), some (getCol t 1), some (getCol t 2),
        some (getCol t 3), some (smoothedVs ms t span)⟩ "model" ref =
        .ok ((List.range t.length).map fun i =>
          ((0 : ℚ) :: [(getCol t 0).getD i 0, (getCol t 1).getD i 0, (getCol t 2).getD i 0,
            (getCol t 3).getD i 0, (smoothedVs ms t span).getD i 0]).map fmt1610) := by
      rw [hsave]
      simp
    simp only [smooth, hload]
    rw [if_neg hsp]
    simp only [getKey_x, getKey_z, Option.getD_some, hfold, hsave']
  · exact model_table_cols (getCol t 0) (getCol t 1) (getCol t 2) (getCol t 3)
      (smoothedVs ms t span) t.length (getCol_length t 0) (getCol_length t 1)
      (getCol_length t 2) (getCol_length t 3) hms

theorem foldl_min_le_init (l : List ℚ) (a : ℚ) : l.foldl min a ≤ a := by
  induction l generalizing a with
  | nil => simp
  | cons b tl ih =>
    calc tl.foldl min (min a b) ≤ min a b := ih _
      _ ≤ a := min_le_left _ _

theorem init_le_foldl_max (l : List ℚ) (a : ℚ) : a ≤ l.foldl max a := by
  induction l generalizing a with
  | nil => simp
  | cons b tl ih =>
    calc a ≤ max a b := le_max_left _ _
      _ ≤ tl.foldl max (max a b) := ih _

theorem listMin_le_listMax (l : List ℚ) (h : l ≠ []) : listMin l ≤ listMax l := by
  cases l with
  | nil => exact absurd rfl h
  | cons a tl =>
    calc listMin (a :: tl) = tl.foldl min a := rfl
      _ ≤ a := foldl_min_le_init tl a
      _ ≤ tl.foldl max a := init_le_foldl_max tl a
      _ = listMax (a :: tl) := rfl

theorem getD_map_fmt (l : List ℚ) (i : ℕ) :
    (l.map fmt1610).getD i 0 = fmt1610 (l.getD i 0) := by
  induction l generalizing i with
  | nil => simp [fmt1610_zero]
  | cons a tl ih =>
    cases i with
    | zero => simp
    | succ j => simpa using ih j

theorem getD_map_lt {f : ℚ → ℚ} (l : List ℚ) (i : ℕ) (h : i < l.length) :
    (l.map f).getD i 0 = f (l.getD i 0) := by
  induction l generalizing i with
  | nil => simp at h
  | cons a tl ih =>
    cases i with
    | zero => simp
    | succ j =>
      simp only [List.map_cons, List.getD_cons_succ]
      exact ih j (by simpa using h)

theorem npclip_mem_interval (lo hi v : ℚ) (h : lo ≤ hi) :
    lo ≤ npclip lo hi v ∧ npclip lo hi v ≤ hi :=
  ⟨le_min h (le_max_right v lo), min_le_left hi _⟩

theorem npclip_eq_self (lo hi v : ℚ) (h1 : lo ≤ v) (h2 : v ≤ hi) :
    npclip lo hi v = v := by
  unfold npclip
  rw [max_eq_left h1, min_eq_right h2]

theorem map_fmt1610_id (l : List ℚ) (h : ∀ q ∈ l, fmt1610 q = q) :
    l.map fmt1610 = l := by
  induction l with
  | nil => rfl
  | cons a tl ih =>
    rw [List.map_cons, h a (List.mem_cons_self a tl),
      ih fun q hq => h q (List.mem_cons_of_mem a hq)]

theorem fmt1610_unit_digit (k : ℤ) (h1 : 1 ≤ |k|) (h2 : |k| < 10) :
    fmt1610 (k : ℚ) = (k : ℚ) := by
  apply fmt1610_eq_self _ (k * 10 ^ 10) 0
  · have he : ((0 : ℤ) - 10) = -(10 : ℤ) := by norm_num
    rw [he, zpow_neg]
    have hzp : (10 : ℚ) ^ (10 : ℤ) = (10 : ℚ) ^ (10 : ℕ) := by
      rw [← zpow_natCast (10 : ℚ) 10]
      norm_num
    rw [hzp]
    push_cast
    field_simp
    norm_num
  · rw [abs_mul]
    have : |(10 : ℤ) ^ 10| = 10 ^ 10 := by norm_num
    rw [this]
    nlinarith
  · rw [abs_mul]
    have : |(10 : ℤ) ^ 10| = 10 ^ 10 := by norm_num
    rw [this]
    nlinarith

/-! ### Claim theorems -/

/-- C1 (counterexample): the claim that a nonzero exit code from either
invoked binary is fatal and reported to the caller is false: with both
binaries exiting 1 (≠ 0), `forward()` and `adjoint()` report success —
`mpirun` discards the `subprocess.call` return status. -/
theorem forward_nonzero_exit_unreported_cex :
    (1 : ℤ) ≠ 0 ∧
    (forward 1 1).result = .ok () ∧
    (adjoint 1 1).result = .ok () :=
  ⟨by decide, rfl, rfl⟩

/-- C1 (amended): `forward()`/`adjoint()` never report a failure: whatever
the exit statuses of the two binaries, each binary is invoked exactly once,
in mesh-then-solver order with no retry, and the caller sees success; the
nonzero status is silently discarded by `mpirun`. -/
theorem forward_adjoint_exit_status_ignored (exitMesh exitSolver : ℤ) :
    (forward exitMesh exitSolver).result = .ok () ∧
    (forward exitMesh exitSolver).calls = ["bin/xmeshfem2D", "bin/xspecfem2D"] ∧
    (adjoint exitMesh exitSolver).result = .ok () ∧
    (adjoint exitMesh exitSolver).calls = ["bin/xmeshfem2D", "bin/xspecfem2D"] :=
  ⟨rfl, rfl, rfl, rfl⟩

/-- C2: `combine(path)` invokes the external kernel-summation binary with
exactly two positional arguments after the program name: the count of
per-worker kernel files found under `path`, and `path` itself; the argument
vector is all `combine` produces — no field summation happens here. -/
theorem combine_argv (getpath path : String) (listing : List String) :
    combine getpath path listing =
      [getpath ++ "/" ++ "bin/xsmooth_sem", toString listing.length, path] ∧
    (combine getpath path listing).length = 3 ∧
    (combine getpath path listing).drop 1 = [toString listing.length, path] :=
  ⟨rfl, rfl, rfl⟩

/-- C5: `smooth` sizes its resampling grid with resolution
`round(sqrt(nodeCount × xExtent / zExtent))` along the x axis and the
identical expression along the z axis — the extent ratio is not inverted
for the second axis. -/
theorem smooth_grid_resolution (nn : ℕ) (lx lz : ℚ) :
    smoothNx nn lx lz = round (Real.sqrt ((nn : ℝ) * (lx : ℝ) / (lz : ℝ))) ∧
    smoothNz nn lx lz = round (Real.sqrt ((nn : ℝ) * (lx : ℝ) / (lz : ℝ))) ∧
    smoothNx nn lx lz = smoothNz nn lx lz :=
  ⟨rfl, rfl, rfl⟩

/-- C7 (counterexample): the claim is false on the squeezed corner of
`np.loadtxt`: a single-column table (column count 1 ∉ {5, 6}) makes `load`
fail with `IndexError` at the shape inspection (`M.shape[1]` on a 1-D
array), not with the claimed format error; and a single-row 5-column table
likewise raises `IndexError` instead of parsing at data offset 0. -/
theorem load_column_count_claim_cex :
    ¬ ((1 : ℕ) = 5 ∨ (1 : ℕ) = 6) ∧
    load [[1], [2]] = .error "IndexError: tuple index out of range" ∧
    "IndexError: tuple index out of range" ≠ "Bad SPECFEM2D model or kernel." ∧
    load [[1, 2, 3, 4, 5]] = .error "IndexError: tuple index out of range" :=
  ⟨by decide, rfl, by decide, rfl⟩

/-- C7 (amended: restricted to tables `np.loadtxt` keeps two-dimensional,
i.e. at least two rows and at least two columns, as the counterexample
forces): on those, a column count other than 5 or 6 fails with the fatal
format error and produces no partial parse, column count 5 parses with first
data column offset 0, and column count 6 parses with a leading identifier
column and offset 1; a single-row or single-column table instead fails
earlier, with `IndexError`, before the column-count check. -/
theorem load_column_policy_2d (t : Table) (ncol : ℕ)
    (hrect : ∀ row ∈ t, row.length = ncol) (hne : t ≠ []) :
    (2 ≤ t.length → 2 ≤ ncol →
      ((ncol = 5 → load t = .ok ⟨some (getCol t 0), some (getCol t 1), some (getCol t 2),
          some (getCol t 3), some (getCol t 4)⟩) ∧
       (ncol = 6 → load t = .ok ⟨some (getCol t 1), some (getCol t 2), some (getCol t 3),
          some (getCol t 4), some (getCol t 5)⟩) ∧
       (ncol ≠ 5 → ncol ≠ 6 → load t = .error "Bad SPECFEM2D model or kernel."))) ∧
    (t.length = 1 ∨ ncol = 1 → load t = .error "IndexError: tuple index out of range") := by
  have hn := ncols_eq t ncol hrect hne
  constructor
  · intro hrows hcols
    refine ⟨?_, ?_, ?_⟩
    · intro h5
      exact load_ncols5 t (hn.trans h5) hrows
    · intro h6
      exact load_ncols6 t (hn.trans h6) hrows
    · intro h5 h6
      exact load_ncols_bad t (fun h => h5 (hn.symm.trans h)) (fun h => h6 (hn.symm.trans h))
        hrows (by omega)
  · intro h
    apply load_squeezed
    rcases h with h | h
    · left
      omega
    · right
      omega

/-- C7 witness: a 2×3 table fails with the format error, a 2×5 table parses
at data offset 0, and a single-column table hits the `IndexError` path. -/
theorem load_column_policy_2d_witness :
    load [[1, 2, 3], [4, 5, 6]] = .error "Bad SPECFEM2D model or kernel." ∧
    load [[1, 2, 3, 4, 5], [6, 7, 8, 9, 10]] =
      .ok ⟨some (getCol [[1, 2, 3, 4, 5], [6, 7, 8, 9, 10]] 0),
        some (getCol [[1, 2, 3, 4, 5], [6, 7, 8, 9, 10]] 1),
        some (getCol [[1, 2, 3, 4, 5], [6, 7, 8, 9, 10]] 2),
        some (getCol [[1, 2, 3, 4, 5], [6, 7, 8, 9, 10]] 3),
        some (getCol [[1, 2, 3, 4, 5], [6, 7, 8, 9, 10]] 4)⟩ ∧
    load [[3], [4]] = .error "IndexError: tuple index out of range" :=
  ⟨((load_column_policy_2d [[1, 2, 3], [4, 5, 6]] 3 (by simp) (by simp)).1
      (by norm_num) (by norm_num)).2.2 (by norm_num) (by norm_num),
   ((load_column_policy_2d [[1, 2, 3, 4, 5], [6, 7, 8, 9, 10]] 5 (by simp) (by simp)).1
      (by norm_num) (by norm_num)).1 rfl,
   (load_column_policy_2d [[3], [4]] 1 (by simp) (by simp)).2 (Or.inr rfl)⟩

/-- C8: `smooth(path, tag, 0)` returns the loaded record unchanged and
performs no filesystem effect: no rename to `_nosmooth` and no write, so
the serialized kernel record on disk is untouched. -/
theorem smooth_span_zero_noop (ms : List ℚ → List ℚ → List ℚ → ℚ → ℤ → ℤ → List ℚ)
    (t ref : Table) (path tag : String) (r : SFRecord)
    (hload : load t = .ok r) :
    smooth ms t ref path tag 0 = .ok (r, []) := by
  simp [smooth, hload]

/-- C8 witness at a concrete 5-column kernel table. -/
theorem smooth_span_zero_noop_witness :
    smooth (fun _ _ v _ _ _ => v) [[1, 2, 3, 4, 5], [6, 7, 8, 9, 10]] [] "p" "g" 0 =
      .ok (⟨some [1, 6], some [2, 7], some [3, 8], some [4, 9], some [5, 10]⟩, []) :=
  smooth_span_zero_noop (fun _ _ v _ _ _ => v) [[1, 2, 3, 4, 5], [6, 7, 8, 9, 10]] []
    "p" "g" ⟨some [1, 6], some [2, 7], some [3, 8], some [4, 9], some [5, 10]⟩ rfl

/-- C9: `export_model` copies the workspace model file to the shared output
root exactly when the worker identity is 0; any nonzero identity performs
no file operation at all. -/
theorem export_model_gated (getpath path : String) (node : ℕ) :
    export_model getpath 0 path =
      [FsOp.cp (getpath ++ "/" ++ "DATA/model_velocity.dat_input") path] ∧
    (node ≠ 0 → export_model getpath node path = []) := by
  refine ⟨rfl, fun h => ?_⟩
  simp [export_model, h]

/-- C9 witness: worker 0 copies, worker 3 does nothing. -/
theorem export_model_gated_witness :
    export_model "ws" 0 "out" =
      [FsOp.cp ("ws" ++ "/" ++ "DATA/model_velocity.dat_input") "out"] ∧
    export_model "ws" 3 "out" = [] :=
  ⟨(export_model_gated "ws" "out" 3).1,
   (export_model_gated "ws" "out" 3).2 (by decide)⟩

/-- C6 (counterexample): the claim quantifies over every `thresh < 1.0`, but
for a negative threshold the two clip bounds invert (`thresh*min > thresh*max`
on a sign-changing field) and `np.clip` then maps every value to the upper
argument, which lies outside the claimed interval: on the field `[-10, 10]`
with `thresh = -1`, the clipped value `-10` violates
`thresh*min ≤ v`. -/
theorem clip_negative_thresh_cex :
    (-1 : ℚ) < 1 ∧
    ∃ r2 effs,
      clip [[0, 0, 0, 0, -10], [0, 0, 0, 0, 10]] [] "path" "gradient" (-1) =
        .ok (r2, effs) ∧
      ∃ vs', r2.vs = some vs' ∧ ∃ v ∈ vs',
        ¬ ((-1) * listMin (getCol [[0, 0, 0, 0, -10], [0, 0, 0, 0, 10]] 4) ≤ v ∧
           v ≤ (-1) * listMax (getCol [[0, 0, 0, 0, -10], [0, 0, 0, 0, 10]] 4)) := by
  refine ⟨by norm_num, ?_⟩
  obtain ⟨t2, heq, -⟩ := clip_run [[0, 0, 0, 0, -10], [0, 0, 0, 0, 10]] [] "path"
    "gradient" (-1) (by norm_num) (by simp) (by simp)
  have hcol : getCol [[0, 0, 0, 0, -10], [0, 0, 0, 0, 10]] 4 = [-10, 10] := rfl
  have hmin : listMin [(-10 : ℚ), 10] = -10 := by
    show List.foldl min (-10) [10] = -10
    rw [List.foldl_cons, List.foldl_nil, min_eq_left (by norm_num : (-10 : ℚ) ≤ 10)]
  have hmax : listMax [(-10 : ℚ), 10] = 10 := by
    show List.foldl max (-10) [10] = 10
    rw [List.foldl_cons, List.foldl_nil, max_eq_right (by norm_num : (-10 : ℚ) ≤ 10)]
  refine ⟨_, _, heq, _, rfl, -10, ?_, ?_⟩
  · have hval : npclip ((-1) * listMin [(-10 : ℚ), 10])
        ((-1) * listMax [(-10 : ℚ), 10]) (-10) = -10 := by
      rw [hmin, hmax]
      unfold npclip
      rw [max_eq_right (by norm_num : (-10 : ℚ) ≤ (-1) * (-10)),
        min_eq_left (by norm_num : (-1 : ℚ) * 10 ≤ (-1) * (-10))]
      norm_num
    rw [hcol, List.map_cons, hval]
    exact List.mem_cons_self _ _
  · rw [hcol, hmin]
    norm_num

/-- C6 (amended: `thresh` restricted to `0 ≤ thresh < 1`, as forced by the
counterexample): `clip` clamps every value of the tracked field into
`[thresh × currentMin, thresh × currentMax]` where the extrema are the
field's own min and max in the record being clipped, and values already
inside that interval are unchanged. -/
theorem clip_clamps_tracked_field (t ref : Table) (path tag : String) (thresh : ℚ)
    (h0 : 0 ≤ thresh) (h1 : thresh < 1)
    (hrect : ∀ row ∈ t, row.length = 5) (hrows : 2 ≤ t.length) :
    ∃ r2 effs, clip t ref path tag thresh = .ok (r2, effs) ∧
      ∃ vs', r2.vs = some vs' ∧
        vs'.length = (getCol t 4).length ∧
        (∀ v ∈ vs',
          thresh * listMin (getCol t 4) ≤ v ∧ v ≤ thresh * listMax (getCol t 4)) ∧
        (∀ i, thresh * listMin (getCol t 4) ≤ (getCol t 4).getD i 0 →
              (getCol t 4).getD i 0 ≤ thresh * listMax (getCol t 4) →
              vs'.getD i 0 = (getCol t 4).getD i 0) := by
  have hth : ¬ thresh ≥ 1 := not_le.mpr h1
  obtain ⟨t2, heq, -⟩ := clip_run t ref path tag thresh hth hrect hrows
  have hvsne : getCol t 4 ≠ [] := by
    intro h
    have := getCol_length t 4
    rw [h] at this
    simp at this
    omega
  have hlohi : thresh * listMin (getCol t 4) ≤ thresh * listMax (getCol t 4) :=
    mul_le_mul_of_nonneg_left (listMin_le_listMax _ hvsne) h0
  refine ⟨_, _, heq, _, rfl, by rw [List.length_map], ?_, ?_⟩
  · intro v hv
    rw [List.mem_map] at hv
    obtain ⟨u, -, rfl⟩ := hv
    exact npclip_mem_interval _ _ u hlohi
  · intro i hlo hhi
    by_cases hi : i < (getCol t 4).length
    · rw [getD_map_lt _ i hi]
      exact npclip_eq_self _ _ _ hlo hhi
    · rw [List.getD_eq_default _ _ (by rw [List.length_map]; omega),
        List.getD_eq_default _ _ (by omega)]

/-- C6 witness: the spec's own example — a field with min −10 and max 10
clipped at `thresh = 0.5` lands in `[−5, 5]` with interior values
unchanged. -/
theorem clip_clamps_tracked_field_witness :
    ∃ r2 effs,
      clip [[0, 0, 0, 0, -10], [1, 1, 1, 1, 10], [2, 2, 2, 2, 3]] [] "path"
          "gradient" (1 / 2) = .ok (r2, effs) ∧
      ∃ vs', r2.vs = some vs' ∧
        vs'.length = (getCol [[0, 0, 0, 0, -10], [1, 1, 1, 1, 10], [2, 2, 2, 2, 3]] 4).length ∧
        (∀ v ∈ vs',
          (1 / 2) * listMin (getCol [[0, 0, 0, 0, -10], [1, 1, 1, 1, 10], [2, 2, 2, 2, 3]] 4) ≤ v ∧
          v ≤ (1 / 2) * listMax (getCol [[0, 0, 0, 0, -10], [1, 1, 1, 1, 10], [2, 2, 2, 2, 3]] 4)) ∧
        (∀ i, (1 / 2) * listMin (getCol [[0, 0, 0, 0, -10], [1, 1, 1, 1, 10], [2, 2, 2, 2, 3]] 4) ≤
                (getCol [[0, 0, 0, 0, -10], [1, 1, 1, 1, 10], [2, 2, 2, 2, 3]] 4).getD i 0 →
              (getCol [[0, 0, 0, 0, -10], [1, 1, 1, 1, 10], [2, 2, 2, 2, 3]] 4).getD i 0 ≤
                (1 / 2) * listMax (getCol [[0, 0, 0, 0, -10], [1, 1, 1, 1, 10], [2, 2, 2, 2, 3]] 4) →
              vs'.getD i 0 =
                (getCol [[0, 0, 0, 0, -10], [1, 1, 1, 1, 10], [2, 2, 2, 2, 3]] 4).getD i 0) :=
  clip_clamps_tracked_field [[0, 0, 0, 0, -10], [1, 1, 1, 1, 10], [2, 2, 2, 2, 3]] []
    "path" "gradient" (1 / 2) (by norm_num) (by norm_num) (by simp) (by simp)

/-- C10: `smooth` and `clip` transform only the fields in the solver's
tracked-parameter list, which is exactly `['vs']`; the `x`, `z`, `rho`, `vp`
sequences of the resulting record are the loaded input's sequences unchanged,
and the corresponding columns of the table written back to disk are exactly
the `'%16.10e'` serialisation (`fmt1610`) of those unchanged sequences —
identical to what writing the untransformed input would produce. -/
theorem postprocessing_touches_only_vs
    (ms : List ℚ → List ℚ → List ℚ → ℚ → ℤ → ℤ → List ℚ)
    (t ref : Table) (path tag : String) (span thresh : ℚ)
    (hsp : ¬ span = 0) (hth : ¬ thresh ≥ 1)
    (hrect : ∀ row ∈ t, row.length = 5) (hrows : 2 ≤ t.length)
    (hms : (smoothedVs ms t span).length = t.length) :
    parameters = ["vs"] ∧
    (∃ t2, smooth ms t ref path tag span =
        .ok (⟨some (getCol t 0), some (getCol t 1), some (getCol t 2), some (getCol t 3),
              some (smoothedVs ms t span)⟩,
             [FsOp.mv (path ++ "/" ++ tag) (path ++ "/" ++ "_nosmooth"),
              FsOp.write (path ++ "/" ++ tag) t2]) ∧
        getCol t2 1 = (getCol t 0).map fmt1610 ∧
        getCol t2 2 = (getCol t 1).map fmt1610 ∧
        getCol t2 3 = (getCol t 2).map fmt1610 ∧
        getCol t2 4 = (getCol t 3).map fmt1610) ∧
    (∃ t2, clip t ref path tag thresh =
        .ok (⟨some (getCol t 0), some (getCol t 1), some (getCol t 2), some (getCol t 3),
              some ((getCol t 4).map fun v =>
                npclip (thresh * listMin (getCol t 4)) (thresh * listMax (getCol t 4)) v)⟩,
             [FsOp.mv (path ++ "/" ++ tag) (path ++ "/" ++ "_noclip"),
              FsOp.write (path ++ "/" ++ tag) t2]) ∧
        getCol t2 1 = (getCol t 0).map fmt1610 ∧
        getCol t2 2 = (getCol t 1).map fmt1610 ∧
        getCol t2 3 = (getCol t 2).map fmt1610 ∧
        getCol t2 4 = (getCol t 3).map fmt1610) := by
  refine ⟨rfl, ?_, ?_⟩
  · obtain ⟨t2, heq, h1, h2, h3, h4, -⟩ := smooth_run ms t ref path tag span hsp hrect hrows hms
    exact ⟨t2, heq, h1, h2, h3, h4⟩
  · obtain ⟨t2, heq, h1, h2, h3, h4, -⟩ := clip_run t ref path tag thresh hth hrect hrows
    exact ⟨t2, heq, h1, h2, h3, h4⟩

/-- C10 witness at a concrete kernel table, a length-preserving `meshsmooth`
stand-in, `span = 1` and `thresh = 1/2`. -/
theorem postprocessing_touches_only_vs_witness :
    parameters = ["vs"] ∧
    (∃ t2, smooth (fun _ _ v _ _ _ => v) [[1, 2, 3, 4, 5], [6, 7, 8, 9, 10]] [] "p" "g" 1 =
        .ok (⟨some (getCol [[1, 2, 3, 4, 5], [6, 7, 8, 9, 10]] 0), some (getCol [[1, 2, 3, 4, 5], [6, 7, 8, 9, 10]] 1),
              some (getCol [[1, 2, 3, 4, 5], [6, 7, 8, 9, 10]] 2), some (getCol [[1, 2, 3, 4, 5], [6, 7, 8, 9, 10]] 3),
              some (smoothedVs (fun _ _ v _ _ _ => v) [[1, 2, 3, 4, 5], [6, 7, 8, 9, 10]] 1)⟩,
             [FsOp.mv ("p" ++ "/" ++ "g") ("p" ++ "/" ++ "_nosmooth"),
              FsOp.write ("p" ++ "/" ++ "g") t2]) ∧
        getCol t2 1 = (getCol [[1, 2, 3, 4, 5], [6, 7, 8, 9, 10]] 0).map fmt1610 ∧
        getCol t2 2 = (getCol [[1, 2, 3, 4, 5], [6, 7, 8, 9, 10]] 1).map fmt1610 ∧
        getCol t2 3 = (getCol [[1, 2, 3, 4, 5], [6, 7, 8, 9, 10]] 2).map fmt1610 ∧
        getCol t2 4 = (getCol [[1, 2, 3, 4, 5], [6, 7, 8, 9, 10]] 3).map fmt1610) ∧
    (∃ t2, clip [[1, 2, 3, 4, 5], [6, 7, 8, 9, 10]] [] "p" "g" (1 / 2) =
        .ok (⟨some (getCol [[1, 2, 3, 4, 5], [6, 7, 8, 9, 10]] 0), some (getCol [[1, 2, 3, 4, 5], [6, 7, 8, 9, 10]] 1),
              some (getCol [[1, 2, 3, 4, 5], [6, 7, 8, 9, 10]] 2), some (getCol [[1, 2, 3, 4, 5], [6, 7, 8, 9, 10]] 3),
              some ((getCol [[1, 2, 3, 4, 5], [6, 7, 8, 9, 10]] 4).map fun v =>
                npclip ((1 / 2) * listMin (getCol [[1, 2, 3, 4, 5], [6, 7, 8, 9, 10]] 4))
                  ((1 / 2) * listMax (getCol [[1, 2, 3, 4, 5], [6, 7, 8, 9, 10]] 4)) v)⟩,
             [FsOp.mv ("p" ++ "/" ++ "g") ("p" ++ "/" ++ "_noclip"),
              FsOp.write ("p" ++ "/" ++ "g") t2]) ∧
        getCol t2 1 = (getCol [[1, 2, 3, 4, 5], [6, 7, 8, 9, 10]] 0).map fmt1610 ∧
        getCol t2 2 = (getCol [[1, 2, 3, 4, 5], [6, 7, 8, 9, 10]] 1).map fmt1610 ∧
        getCol t2 3 = (getCol [[1, 2, 3, 4, 5], [6, 7, 8, 9, 10]] 2).map fmt1610 ∧
        getCol t2 4 = (getCol [[1, 2, 3, 4, 5], [6, 7, 8, 9, 10]] 3).map fmt1610) :=
  postprocessing_touches_only_vs (fun _ _ v _ _ _ => v) [[1, 2, 3, 4, 5], [6, 7, 8, 9, 10]] [] "p" "g"
    1 (1 / 2) (by norm_num) (by norm_num) (by simp) (by simp)
    (by simp [smoothedVs, getCol])

/-- C3: for every valid 5-column (resp. 6-column) table, `load` followed by
`save` with the corresponding kind (`"kernel"` resp. `"model"`) followed by
`load` again reproduces every field's value sequence within the tolerance of
the `'%16.10e'` serialisation (modelled by `fmt1610`): each reloaded value
differs from the original by at most `|original| / 10^10`. -/
theorem load_save_load_roundtrip (t ref : Table) (ncol : ℕ) (kind : String)
    (hrect : ∀ row ∈ t, row.length = ncol) (hrows : 2 ≤ t.length)
    (hkind : (ncol = 5 ∧ kind = "kernel") ∨ (ncol = 6 ∧ kind = "model")) :
    ∃ r t2 r2, load t = .ok r ∧ save r kind ref = .ok t2 ∧ load t2 = .ok r2 ∧
      ∀ key ∈ ["x", "z", "rho", "vp", "vs"],
        ∃ as bs, getKey r2 key = some as ∧ getKey r key = some bs ∧
          as.length = bs.length ∧
          ∀ i, |as.getD i 0 - bs.getD i 0| ≤ |bs.getD i 0| / 10 ^ 10 := by
  have hfield : ∀ c : List ℚ, (c.map fmt1610).length = c.length ∧
      ∀ i, |(c.map fmt1610).getD i 0 - c.getD i 0| ≤ |c.getD i 0| / 10 ^ 10 := by
    intro c
    refine ⟨List.length_map c fmt1610, fun i => ?_⟩
    rw [getD_map_fmt]
    exact fmt1610_close _
  have hne : t ≠ [] := by
    intro h
    rw [h] at hrows
    simp at hrows
  have hlen0 : t.length ≠ 0 := fun h => hne (List.length_eq_zero.mp h)
  rcases hkind with ⟨rfl, rfl⟩ | ⟨rfl, rfl⟩
  · -- 5 columns, kind "kernel"
    have hload := load_ncols5 t (ncols_eq t 5 hrect hne) hrows
    have hsave := save_all_present (getCol t 0) (getCol t 1) (getCol t 2) (getCol t 3)
      (getCol t 4) ref "kernel" t.length (getCol_length t 0) (getCol_length t 1)
      (getCol_length t 2) (getCol_length t 3) (getCol_length t 4) (Or.inr rfl)
    have hsave' : save ⟨some (getCol t 0), some (getCol t 1), some (getCol t 2),
        some (getCol t 3), some (getCol t 4)⟩ "kernel" ref =
        .ok ((List.range t.length).map fun i =>
          ([(getCol t 0).getD i 0, (getCol t 1).getD i 0, (getCol t 2).getD i 0,
            (getCol t 3).getD i 0, (getCol t 4).getD i 0]).map fmt1610) := by
      rw [hsave]
      simp
    set T := (List.range t.length).map fun i =>
      ([(getCol t 0).getD i 0, (getCol t 1).getD i 0, (getCol t 2).getD i 0,
        (getCol t 3).getD i 0, (getCol t 4).getD i 0]).map fmt1610 with hT
    have hTrect : ∀ row ∈ T, row.length = 5 :=
      saved_table_rect_kernel (getCol t 0) (getCol t 1) (getCol t 2) (getCol t 3)
        (getCol t 4) t.length
    have hTlen : T.length = t.length := by rw [hT]; simp
    have hTne : T ≠ [] := by
      intro h
      apply hlen0
      rw [h] at hTlen
      simpa using hTlen.symm
    have hload2 := load_ncols5 T (ncols_eq T 5 hTrect hTne) (by omega)
    obtain ⟨hc0, hc1, hc2, hc3, hc4⟩ := kernel_table_cols (getCol t 0) (getCol t 1)
      (getCol t 2) (getCol t 3) (getCol t 4) t.length (getCol_length t 0)
      (getCol_length t 1) (getCol_length t 2) (getCol_length t 3) (getCol_length t 4)
    refine ⟨_, T, _, hload, hsave', hload2, ?_⟩
    intro key hkey
    simp only [List.mem_cons, List.not_mem_nil, or_false] at hkey
    rcases hkey with rfl | rfl | rfl | rfl | rfl
    · exact ⟨_, _, by rw [getKey_x, hc0], getKey_x _, (hfield (getCol t 0)).1,
        (hfield (getCol t 0)).2⟩
    · exact ⟨_, _, by rw [getKey_z, hc1], getKey_z _, (hfield (getCol t 1)).1,
        (hfield (getCol t 1)).2⟩
    · exact ⟨_, _, by rw [getKey_rho, hc2], getKey_rho _, (hfield (getCol t 2)).1,
        (hfield (getCol t 2)).2⟩
    · exact ⟨_, _, by rw [getKey_vp, hc3], getKey_vp _, (hfield (getCol t 3)).1,
        (hfield (getCol t 3)).2⟩
    · exact ⟨_, _, by rw [getKey_vs, hc4], getKey_vs _, (hfield (getCol t 4)).1,
        (hfield (getCol t 4)).2⟩
  · -- 6 columns, kind "model"
    have hload := load_ncols6 t (ncols_eq t 6 hrect hne) hrows
    have hsave := save_all_present (getCol t 1) (getCol t 2) (getCol t 3) (getCol t 4)
      (getCol t 5) ref "model" t.length (getCol_length t 1) (getCol_length t 2)
      (getCol_length t 3) (getCol_length t 4) (getCol_length t 5) (Or.inl rfl)
    have hsave' : save ⟨some (getCol t 1), some (getCol t 2), some (getCol t 3),
        some (getCol t 4), some (getCol t 5)⟩ "model" ref =
        .ok ((List.range t.length).map fun i =>
          ((0 : ℚ) :: [(getCol t 1).getD i 0, (getCol t 2).getD i 0, (getCol t 3).getD i 0,
            (getCol t 4).getD i 0, (getCol t 5).getD i 0]).map fmt1610) := by
      rw [hsave]
      simp
    set T := (List.range t.length).map fun i =>
      ((0 : ℚ) :: [(getCol t 1).getD i 0, (getCol t 2).getD i 0, (getCol t 3).getD i 0,
        (getCol t 4).getD i 0, (getCol t 5).getD i 0]).map fmt1610 with hT
    have hTrect : ∀ row ∈ T, row.length = 6 :=
      saved_table_rect_model (getCol t 1) (getCol t 2) (getCol t 3) (getCol t 4)
        (getCol t 5) t.length
    have hTlen : T.length = t.length := by rw [hT]; simp
    have hTne : T ≠ [] := by
      intro h
      apply hlen0
      rw [h] at hTlen
      simpa using hTlen.symm
    have hload2 := load_ncols6 T (ncols_eq T 6 hTrect hTne) (by omega)
    obtain ⟨hc1, hc2, hc3, hc4, hc5⟩ := model_table_cols (getCol t 1) (getCol t 2)
      (getCol t 3) (getCol t 4) (getCol t 5) t.length (getCol_length t 1)
      (getCol_length t 2) (getCol_length t 3) (getCol_length t 4) (getCol_length t 5)
    refine ⟨_, T, _, hload, hsave', hload2, ?_⟩
    intro key hkey
    simp only [List.mem_cons, List.not_mem_nil, or_false] at hkey
    rcases hkey with rfl | rfl | rfl | rfl | rfl
    · exact ⟨_, _, by rw [getKey_x, hc1], getKey_x _, (hfield (getCol t 1)).1,
        (hfield (getCol t 1)).2⟩
    · exact ⟨_, _, by rw [getKey_z, hc2], getKey_z _, (hfield (getCol t 2)).1,
        (hfield (getCol t 2)).2⟩
    · exact ⟨_, _, by rw [getKey_rho, hc3], getKey_rho _, (hfield (getCol t 3)).1,
        (hfield (getCol t 3)).2⟩
    · exact ⟨_, _, by rw [getKey_vp, hc4], getKey_vp _, (hfield (getCol t 4)).1,
        (hfield (getCol t 4)).2⟩
    · exact ⟨_, _, by rw [getKey_vs, hc5], getKey_vs _, (hfield (getCol t 5)).1,
        (hfield (getCol t 5)).2⟩

/-- C3 witness at a concrete 5-column table with the `"kernel"` kind. -/
theorem load_save_load_roundtrip_witness :
    ∃ r t2 r2, load [[1, 2, 3, 4, 5], [6, 7, 8, 9, 10]] = .ok r ∧
      save r "kernel" [] = .ok t2 ∧ load t2 = .ok r2 ∧
      ∀ key ∈ ["x", "z", "rho", "vp", "vs"],
        ∃ as bs, getKey r2 key = some as ∧ getKey r key = some bs ∧
          as.length = bs.length ∧
          ∀ i, |as.getD i 0 - bs.getD i 0| ≤ |bs.getD i 0| / 10 ^ 10 :=
  load_save_load_roundtrip [[1, 2, 3, 4, 5], [6, 7, 8, 9, 10]] [] 5 "kernel"
    (by simp) (by simp) (Or.inl ⟨rfl, rfl⟩)

/-- C4: `save` with kind `"kernel"` on a record containing only `{x, z, vs}`
backfills the `rho` and `vp` columns from the reference initial-model table
purely by node position (`loadbyproc` extracts the reference column, no
reordering or id-based matching), producing a complete 5-column table whose
`rho`/`vp` columns equal the reference table's corresponding columns row for
row (exactly, whenever the reference values are `'%16.10e'`-representable,
i.e. fixed points of `fmt1610` — as any file written by this codec is). -/
theorem save_kernel_backfill (xs zs vs : List ℚ) (ref : Table) (n ncol : ℕ)
    (hx : xs.length = n) (hz : zs.length = n) (hvs : vs.length = n)
    (href : ∀ row ∈ ref, row.length = ncol) (hrne : ref ≠ [])
    (hnc : ncol = 5 ∨ ncol = 6) (hrlen : ref.length = n) (hrref : 2 ≤ ref.length)
    (hfixrho : ∀ q ∈ getCol ref ((if ncol = 5 then 0 else 1) + 2), fmt1610 q = q)
    (hfixvp : ∀ q ∈ getCol ref ((if ncol = 5 then 0 else 1) + 3), fmt1610 q = q) :
    ∃ t2, save ⟨some xs, some zs, none, none, some vs⟩ "kernel" ref = .ok t2 ∧
      (∀ row ∈ t2, row.length = 5) ∧
      getCol t2 2 = getCol ref ((if ncol = 5 then 0 else 1) + 2) ∧
      getCol t2 3 = getCol ref ((if ncol = 5 then 0 else 1) + 3) := by
  subst hx
  rcases hnc with rfl | rfl
  · norm_num at hfixrho hfixvp ⊢
    have hl : ncols ref = 5 := ncols_eq ref 5 href hrne
    have hsq : ¬ (ref.length < 2 ∨ ncols ref < 2) := by omega
    have hrho : loadbyproc ref "rho" = .ok (some (getCol ref 2)) := by
      unfold loadbyproc
      rw [if_neg hsq]
      simp [hl]
    have hvp' : loadbyproc ref "vp" = .ok (some (getCol ref 3)) := by
      unfold loadbyproc
      rw [if_neg hsq]
      simp [hl]
    have hcol2 : (getCol ref 2).length = xs.length := by rw [getCol_length, hrlen]
    have hcol3 : (getCol ref 3).length = xs.length := by rw [getCol_length, hrlen]
    have hsv : save ⟨some xs, some zs, none, none, some vs⟩ "kernel" ref =
        .ok ((List.range xs.length).map fun i =>
          ([xs.getD i 0, zs.getD i 0, (getCol ref 2).getD i 0,
            (getCol ref 3).getD i 0, vs.getD i 0]).map fmt1610) := by
      simp [save, firstPresent, fillCol, Except.bind, hrho, hvp', hz, hvs, hcol2, hcol3]
    refine ⟨_, hsv, saved_table_rect_kernel xs zs (getCol ref 2) (getCol ref 3) vs
      xs.length, ?_, ?_⟩
    · have h := (kernel_table_cols xs zs (getCol ref 2) (getCol ref 3) vs xs.length
        rfl hz hcol2 hcol3 hvs).2.2.1
      rw [h]
      exact map_fmt1610_id _ hfixrho
    · have h := (kernel_table_cols xs zs (getCol ref 2) (getCol ref 3) vs xs.length
        rfl hz hcol2 hcol3 hvs).2.2.2.1
      rw [h]
      exact map_fmt1610_id _ hfixvp
  · norm_num at hfixrho hfixvp ⊢
    have hl : ncols ref = 6 := ncols_eq ref 6 href hrne
    have hsq : ¬ (ref.length < 2 ∨ ncols ref < 2) := by omega
    have hrho : loadbyproc ref "rho" = .ok (some (getCol ref 3)) := by
      unfold loadbyproc
      rw [if_neg hsq]
      simp [hl]
    have hvp' : loadbyproc ref "vp" = .ok (some (getCol ref 4)) := by
      unfold loadbyproc
      rw [if_neg hsq]
      simp [hl]
    have hcol2 : (getCol ref 3).length = xs.length := by rw [getCol_length, hrlen]
    have hcol3 : (getCol ref 4).length = xs.length := by rw [getCol_length, hrlen]
    have hsv : save ⟨some xs, some zs, none, none, some vs⟩ "kernel" ref =
        .ok ((List.range xs.length).map fun i =>
          ([xs.getD i 0, zs.getD i 0, (getCol ref 3).getD i 0,
            (getCol ref 4).getD i 0, vs.getD i 0]).map fmt1610) := by
      simp [save, firstPresent, fillCol, Except.bind, hrho, hvp', hz, hvs, hcol2, hcol3]
    refine ⟨_, hsv, saved_table_rect_kernel xs zs (getCol ref 3) (getCol ref 4) vs
      xs.length, ?_, ?_⟩
    · have h := (kernel_table_cols xs zs (getCol ref 3) (getCol ref 4) vs xs.length
        rfl hz hcol2 hcol3 hvs).2.2.1
      rw [h]
      exact map_fmt1610_id _ hfixrho
    · have h := (kernel_table_cols xs zs (getCol ref 3) (getCol ref 4) vs xs.length
        rfl hz hcol2 hcol3 hvs).2.2.2.1
      rw [h]
      exact map_fmt1610_id _ hfixvp

/-- C4 witness: a `{x, z, vs}`-only 2-node record saved as a kernel against
the 2-row reference table `[[1, 2, 3, 4, 5], [6, 7, 8, 9, 10]]` gets
`rho = [3, 8]` and `vp = [4, 9]` backfilled by node position. -/
theorem save_kernel_backfill_witness :
    ∃ t2, save ⟨some [6, 6], some [7, 7], none, none, some [8, 8]⟩ "kernel"
        [[1, 2, 3, 4, 5], [6, 7, 8, 9, 10]] = .ok t2 ∧
      (∀ row ∈ t2, row.length = 5) ∧
      getCol t2 2 = getCol [[1, 2, 3, 4, 5], [6, 7, 8, 9, 10]] 2 ∧
      getCol t2 3 = getCol [[1, 2, 3, 4, 5], [6, 7, 8, 9, 10]] 3 :=
  save_kernel_backfill [6, 6] [7, 7] [8, 8] [[1, 2, 3, 4, 5], [6, 7, 8, 9, 10]] 2 5
    rfl rfl rfl (by simp) (by simp) (Or.inl rfl) rfl (by norm_num)
    (by
      intro q hq
      norm_num [getCol] at hq
      rcases hq with rfl | rfl
      · exact_mod_cast fmt1610_unit_digit 3 (by norm_num) (by norm_num)
      · exact_mod_cast fmt1610_unit_digit 8 (by norm_num) (by norm_num))
    (by
      intro q hq
      norm_num [getCol] at hq
      rcases hq with rfl | rfl
      · exact_mod_cast fmt1610_unit_digit 4 (by norm_num) (by norm_num)
      · exact_mod_cast fmt1610_unit_digit 9 (by norm_num) (by norm_num))

end Seisflows
